import Mathlib

/-!
Verification of the object store, index decoder and tree decoder of
`pygit.py` via a shallow embedding.

Modelling conventions:
* Python `bytes` become `List Nat` (each element intended `< 256`); Python
  `str` becomes `List Char`.
* `hashlib.sha1` and `zlib.compress`/`zlib.decompress` are external library
  collaborators, so they are parameters of the embedded functions; theorems
  assume only the properties the source relies on (digest length, the
  compression round trip).
* `bytes.decode` is modelled for the ASCII plane (all bytes `< 128`): every
  byte string actually decoded by the verified claims is ASCII.
* `int(s)` / `int(s, 8)` are modelled for plain digit strings, the only
  forms the embedded code ever produces or that the claims exercise.
* The filesystem under `.git/objects` is modelled as an association list of
  shard directories, each an association list of file names to contents;
  Python raising an exception is modelled by `Except`.
-/

/-- Python `bytes`: a list of byte values. -/
abbrev Bytes := List Nat

/-- Python `str`: a list of characters. -/
abbrev PyStr := List Char

/-- The whitespace test used by Python `str.split()` on the ASCII plane
(the only plane `pyDecode` produces): code points 9..13 (tab, LF, VT, FF,
CR), 28..31 (the FS/GS/RS/US separators, for which `str.isspace()` is also
true) and 32 (space). -/
def isSpaceCh (c : Char) : Bool :=
  c.toNat == 32 || (9 ≤ c.toNat && c.toNat ≤ 13) || (28 ≤ c.toNat && c.toNat ≤ 31)

/-- Worker for `pySplit`: `acc` holds the current token reversed. -/
def pySplitGo : PyStr → PyStr → List PyStr
  | [], acc => if acc.isEmpty then [] else [acc.reverse]
  | c :: cs, acc =>
    if isSpaceCh c then
      if acc.isEmpty then pySplitGo cs [] else acc.reverse :: pySplitGo cs []
    else pySplitGo cs (c :: acc)

/-- Python `str.split()` with no argument: split on runs of whitespace,
dropping empty tokens. -/
def pySplit (s : PyStr) : List PyStr := pySplitGo s []

/-- Python `str.encode()` for ASCII text: each character to its code point. -/
def pyEncode (s : PyStr) : Bytes := s.map Char.toNat

/-- Python `bytes.decode()` restricted to ASCII input; `none` models
`UnicodeDecodeError` (or any non-ASCII input, which no claim exercises). -/
def pyDecode (b : Bytes) : Option PyStr :=
  if b.all (fun v => v < 128) then some (b.map Char.ofNat) else none

/-- The character for decimal digit `d`. -/
def digitCh (d : Nat) : Char := Char.ofNat (48 + d)

/-- Decimal digit test on characters. -/
def isDigitCh (c : Char) : Bool := 48 ≤ c.toNat && c.toNat ≤ 57

/-- Octal digit test on characters. -/
def isOctCh (c : Char) : Bool := 48 ≤ c.toNat && c.toNat ≤ 55

/-- Fuel-driven worker for `natRepr`. -/
def natReprAux : Nat → Nat → PyStr
  | 0, _ => []
  | fuel + 1, n =>
    if n < 10 then [digitCh n]
    else natReprAux fuel (n / 10) ++ [digitCh (n % 10)]

/-- Python `str(n)` for a natural number. -/
def natRepr (n : Nat) : PyStr := natReprAux (n + 1) n

/-- Python `int(s)` restricted to plain decimal digit strings. -/
def parseDec (l : PyStr) : Option Nat :=
  if l.isEmpty || !(l.all isDigitCh) then none
  else some (l.foldl (fun a c => 10 * a + (c.toNat - 48)) 0)

/-- Python `int(s, 8)` restricted to plain octal digit strings. -/
def parseOct (l : PyStr) : Option Nat :=
  if l.isEmpty || !(l.all isOctCh) then none
  else some (l.foldl (fun a c => 8 * a + (c.toNat - 48)) 0)

/-- Big-endian interpretation of a byte string, as used by
`struct.unpack` format codes `L` (on 4 bytes) and `H` (on 2 bytes). -/
def beNat (l : Bytes) : Nat := l.foldl (fun a b => 256 * a + b) 0

/-- The character for hex digit `d` (lowercase, as `bytes.hex()`). -/
def hexDigitCh (d : Nat) : Char :=
  Char.ofNat (if d < 10 then 48 + d else 87 + d)

/-- Python `bytes.hex()`: two lowercase hex digits per byte. -/
def bytesHex (b : Bytes) : PyStr :=
  (b.map (fun v => [hexDigitCh (v / 16 % 16), hexDigitCh (v % 16)])).flatten

/-- Python `bytes.index(b, i)` relativised: index of the first NUL byte, or
`none` when there is none (Python raises `ValueError`). -/
def pyIndexNul : Bytes → Option Nat
  | [] => none
  | b :: rest => if b = 0 then some 0 else (pyIndexNul rest).map (· + 1)

/-- The shard directory tree under `.git/objects`: each entry is a shard
directory (named by the first two digest characters) holding files mapping
a name (the remaining digest characters) to raw file contents. -/
structure ObjectStore where
  dirs : List (PyStr × List (PyStr × Bytes))
deriving DecidableEq

/-- `os.listdir`-style lookup of one shard directory; `none` models the
`FileNotFoundError` raised when the directory does not exist. -/
def lookupDir (st : ObjectStore) (shard : PyStr) : Option (List (PyStr × Bytes)) :=
  (st.dirs.find? (fun e => e.1 == shard)).map (fun e => e.2)

/-- `os.path.exists` for `.git/objects/<shard>/<name>`. -/
def pathExists (st : ObjectStore) (shard name : PyStr) : Bool :=
  match lookupDir st shard with
  | none => false
  | some files => files.any (fun f => f.1 == name)

/-- `read_file` on an object path: the stored contents, if present. -/
def readFileStore (st : ObjectStore) (shard name : PyStr) : Option Bytes :=
  (lookupDir st shard).bind (fun files =>
    (files.find? (fun f => f.1 == name)).map (fun f => f.2))

/-- Worker for `writeObj`: create the shard directory if absent
(`os.makedirs`) and add the file to it (`write_file`). -/
def writeObjToDirs : List (PyStr × List (PyStr × Bytes)) → PyStr → PyStr → Bytes →
    List (PyStr × List (PyStr × Bytes))
  | [], shard, name, content => [(shard, [(name, content)])]
  | (s, fs) :: rest, shard, name, content =>
    if s == shard then (s, fs ++ [(name, content)]) :: rest
    else (s, fs) :: writeObjToDirs rest shard name content

/-- `os.makedirs` plus `write_file` for an object path. -/
def writeObj (st : ObjectStore) (shard name : PyStr) (content : Bytes) : ObjectStore :=
  ⟨writeObjToDirs st.dirs shard name content⟩

/-- Total number of files in the store. -/
def countFiles (st : ObjectStore) : Nat :=
  (st.dirs.map (fun d => d.2.length)).sum

/-- The framed object bytes computed by `hash_object`:
`header = "{} {}".format(obj_type, len(data)).encode()` and
`full_data = header + b'\x00' + data`. -/
def frameObj (obj_type : PyStr) (data : Bytes) : Bytes :=
  pyEncode (obj_type ++ [' '] ++ natRepr data.length) ++ [0] ++ data

/-- `hash_object` from the source: compute the digest of the framed data;
when `write` is set and no file exists at `objects/<sha1[:2]>/<sha1[2:]>`,
create the directory and write the compressed framed data; return the hex
digest (and the resulting store). `sha1hex` models
`hashlib.sha1(...).hexdigest()` and `compress` models `zlib.compress`. -/
def hash_object (sha1hex : Bytes → PyStr) (compress : Bytes → Bytes)
    (st : ObjectStore) (data : Bytes) (obj_type : PyStr) (write : Bool) :
    PyStr × ObjectStore :=
  let full_data := frameObj obj_type data
  let sha1 := sha1hex full_data
  if write then
    let shard := sha1.take 2
    let name := sha1.drop 2
    if pathExists st shard name then (sha1, st)
    else (sha1, writeObj st shard name (compress full_data))
  else (sha1, st)

/-- Failure modes of `find_object`. `prefixTooShort`, `notFound` and
`ambiguous` model the three `ValueError`s raised by the source;
`fileNotFound` models the `FileNotFoundError` escaping from `os.listdir`
when the shard directory does not exist. -/
inductive FindErr
  | prefixTooShort
  | fileNotFound
  | notFound
  | ambiguous (count : Nat)
deriving DecidableEq

/-- `find_object` from the source: reject prefixes shorter than 2, list the
shard directory named by the first two characters, keep the names starting
with the rest of the prefix, and return the unique match as the pair
(shard, file name) — the source returns the joined path
`.git/objects/<shard>/<name>` built from exactly this pair. -/
def find_object (st : ObjectStore) (pfx : PyStr) : Except FindErr (PyStr × PyStr) :=
  if pfx.length < 2 then .error .prefixTooShort
  else
    let shard := pfx.take 2
    let rest := pfx.drop 2
    match lookupDir st shard with
    | none => .error .fileNotFound
    | some files =>
      match (files.map (fun f => f.1)).filter (fun n => rest.isPrefixOf n) with
      | [] => .error .notFound
      | [name] => .ok (shard, name)
      | more => .error (.ambiguous more.length)

/-- Failure modes of `read_object`: a propagated `find_object` failure, the
`ValueError` from `bytes.index` when no NUL is present, a decode failure,
the `ValueError` from unpacking the header into exactly two tokens, an
`int()` parse failure, and the size assertion. -/
inductive ReadErr
  | findErr (e : FindErr)
  | fileNotFound
  | noNul
  | decodeErr
  | unpackErr
  | intErr
  | sizeMismatch
deriving DecidableEq

/-- `read_object` from the source: resolve the prefix, read and decompress
the file, split at the first NUL into header and payload, parse
`"<type> <size>"`, and check `size == len(data)` (the assert). `decompress`
models `zlib.decompress`. -/
def read_object (decompress : Bytes → Bytes) (st : ObjectStore) (pfx : PyStr) :
    Except ReadErr (PyStr × Bytes) :=
  match find_object st pfx with
  | .error e => .error (.findErr e)
  | .ok (shard, name) =>
    match readFileStore st shard name with
    | none => .error .fileNotFound
    | some content =>
      let full_data := decompress content
      match pyIndexNul full_data with
      | none => .error .noNul
      | some null_index =>
        match pyDecode (full_data.take null_index) with
        | none => .error .decodeErr
        | some header =>
          match pySplit header with
          | [obj_type, size_str] =>
            match parseDec size_str with
            | none => .error .intErr
            | some size =>
              let data := full_data.drop (null_index + 1)
              if size = data.length then .ok (obj_type, data)
              else .error .sizeMismatch
          | _ => .error .unpackErr

/-- One entry of the index file, mirroring the `INDEXENTRY` namedtuple. -/
structure INDEXENTRY where
  ctime_s : Nat
  ctime_n : Nat
  mtime_s : Nat
  mtime_n : Nat
  dev : Nat
  ino : Nat
  mode : Nat
  uid : Nat
  gid : Nat
  size : Nat
  sha1 : Bytes
  flags : Nat
  path : PyStr
deriving DecidableEq

/-- Failure modes of `read_index`. `checksumMismatch`, `badSignature`,
`unsupportedVersion` and `entryCountMismatch` model the four asserts of the
source; `structError` models `struct.error` on short input; `nulNotFound`
models the `ValueError` from `bytes.index`; `decodeError` a path decode
failure. `truncatedIndex` is modelled from the spec: the spec prescribes a
dedicated error for files shorter than 32 bytes, but the source contains no
such length check, so this constructor is never produced by `read_index`. -/
inductive IndexErr
  | checksumMismatch
  | badSignature
  | unsupportedVersion
  | entryCountMismatch
  | structError
  | nulNotFound
  | decodeError
  | truncatedIndex
deriving DecidableEq

/-- `struct.unpack('!LLLLLLLLLL20sH', b)` followed by appending the path,
reading the 62-byte slice sequentially exactly as the format string does:
ten big-endian 4-byte words, then 20 raw bytes, then a big-endian 2-byte
word. -/
def mkEntryCode (b : Bytes) (path : PyStr) : INDEXENTRY :=
  ⟨beNat (b.take 4),
   beNat ((b.drop 4).take 4),
   beNat ((b.drop 8).take 4),
   beNat ((b.drop 12).take 4),
   beNat ((b.drop 16).take 4),
   beNat ((b.drop 20).take 4),
   beNat ((b.drop 24).take 4),
   beNat ((b.drop 28).take 4),
   beNat ((b.drop 32).take 4),
   beNat ((b.drop 36).take 4),
   (b.drop 40).take 20,
   beNat ((b.drop 60).take 2),
   path⟩

/-- The entry-region walk of `read_index` (source lines 61..73), on the
suffix of `entry_data` from the current position `i` onward (every access
of one iteration is relative to `i`, so passing the suffix is equivalent to
passing the index): while more than 62 bytes remain, unpack the 62-byte
fixed part, find the NUL terminating the path, build the entry, and
advance by `((62 + len(path) + 8) // 8) * 8`. -/
def parseEntries (rest : Bytes) : Except IndexErr (List INDEXENTRY) :=
  if h : 62 < rest.length then
    match pyIndexNul (rest.drop 62) with
    | none => .error .nulNotFound
    | some k =>
      let pathB := (rest.drop 62).take k
      match pyDecode pathB with
      | none => .error .decodeError
      | some path =>
        match parseEntries (rest.drop ((62 + pathB.length + 8) / 8 * 8)) with
        | .error e => .error e
        | .ok es => .ok (mkEntryCode (rest.take 62) path :: es)
  else .ok []
termination_by rest.length
decreasing_by
  simp only [List.length_drop]
  omega

/-- `read_index` from the source. `sha1` models `hashlib.sha1(...).digest()`
and the file contents are passed as `none` when the file does not exist
(the `FileNotFoundError` branch returns `[]`). The checksum comparison
reproduces the source exactly: the digest of `data[:-20]` is compared
against `data[:-20]` itself. -/
def read_index (sha1 : Bytes → Bytes) (file : Option Bytes) :
    Except IndexErr (List INDEXENTRY) :=
  match file with
  | none => .ok []
  | some data =>
    let digest := sha1 (data.take (data.length - 20))
    if digest = data.take (data.length - 20) then
      if 12 ≤ data.length then
        let signature := data.take 4
        let version := beNat ((data.drop 4).take 4)
        let num_entries := beNat ((data.drop 8).take 4)
        if signature = [68, 73, 82, 67] then
          if version = 2 then
            match parseEntries ((data.drop 12).take (data.length - 32)) with
            | .error e => .error e
            | .ok entries =>
              if entries.length = num_entries then .ok entries
              else .error .entryCountMismatch
          else .error .unsupportedVersion
        else .error .badSignature
      else .error .structError
    else .error .checksumMismatch

/-- Failure modes of `read_tree` on raw payload data: a decode failure, the
`ValueError` from unpacking the pre-NUL bytes into exactly two tokens, and
an `int(s, 8)` parse failure. -/
inductive TreeErr
  | decodeErr
  | unpackErr
  | intErr
deriving DecidableEq

/-- The body of `read_tree`'s `for _ in range(1000)` loop, on the suffix of
`data` from the current position onward: find the next NUL (stop if none),
decode and whitespace-split the prefix into exactly the mode and path
tokens, parse the mode in base 8, hex-encode the following (up to) 20 bytes
as the digest, and continue after them. The fuel argument plays the role of
the remaining loop iterations: when it runs out the loop simply ends and
the entries collected so far are returned. -/
def read_tree_aux (fuel : Nat) (data : Bytes) :
    Except TreeErr (List (Nat × PyStr × PyStr)) :=
  match fuel with
  | 0 => .ok []
  | fuel + 1 =>
    match pyIndexNul data with
    | none => .ok []
    | some e =>
      match pyDecode (data.take e) with
      | none => .error .decodeErr
      | some s =>
        match pySplit s with
        | [mode_str, path] =>
          match parseOct mode_str with
          | none => .error .intErr
          | some mode =>
            let digest := (data.drop (e + 1)).take 20
            match read_tree_aux fuel (data.drop (e + 1 + 20)) with
            | .error err => .error err
            | .ok entries => .ok ((mode, path, bytesHex digest) :: entries)
        | _ => .error .unpackErr

/-- `read_tree` from the source, on raw tree payload bytes (`data=` mode):
the loop runs at most 1000 iterations. -/
def read_tree (data : Bytes) : Except TreeErr (List (Nat × PyStr × PyStr)) :=
  read_tree_aux 1000 data

/-- Follows the claim's wording (spec section 4.3 step 4) for one entry:
ten fixed 4-byte big-endian fields at offsets 0,4,...,36, a 20-byte raw
digest at offset 40, and a 2-byte flags field at offset 60, all read
positionally from the start of the record. -/
def mkEntrySpec (rest : Bytes) (path : PyStr) : INDEXENTRY :=
  ⟨beNat ((rest.drop 0).take 4),
   beNat ((rest.drop 4).take 4),
   beNat ((rest.drop 8).take 4),
   beNat ((rest.drop 12).take 4),
   beNat ((rest.drop 16).take 4),
   beNat ((rest.drop 20).take 4),
   beNat ((rest.drop 24).take 4),
   beNat ((rest.drop 28).take 4),
   beNat ((rest.drop 32).take 4),
   beNat ((rest.drop 36).take 4),
   (rest.drop 40).take 20,
   beNat ((rest.drop 60).take 2),
   path⟩

/-- Follows the claim's wording: the consumed length of a record is the
record length (62 fixed bytes plus the path) rounded up to the next
multiple of 8 with at least one NUL of padding after the path, i.e. the
record length plus a padding of `8 - (recordLen % 8)` NULs (a full 8 when
the record already ends on a boundary, so padding is always ≥ 1). -/
def entryLenSpec (pathLen : Nat) : Nat :=
  (62 + pathLen) + (8 - (62 + pathLen) % 8)

/-- Follows the claim's wording for the whole walk: records are consumed
sequentially, each contributing the entry of `mkEntrySpec` and advancing by
`entryLenSpec`, and the walk stops when fewer than 63 bytes remain. -/
def parseEntriesSpec (rest : Bytes) : Except IndexErr (List INDEXENTRY) :=
  if h : rest.length < 63 then .ok []
  else
    match pyIndexNul (rest.drop 62) with
    | none => .error .nulNotFound
    | some k =>
      match pyDecode ((rest.drop 62).take k) with
      | none => .error .decodeError
      | some path =>
        match parseEntriesSpec (rest.drop (entryLenSpec ((rest.drop 62).take k).length)) with
        | .error e => .error e
        | .ok es => .ok (mkEntrySpec rest path :: es)
termination_by rest.length
decreasing_by
  simp only [List.length_drop, entryLenSpec]
  omega

/-- A stand-in for `hashlib.sha1(...).digest()` used to instantiate
hypothesis-bearing theorems at concrete inputs: like real SHA-1 it always
produces 20 bytes. -/
def sha1stub : Bytes → Bytes := fun _ => List.replicate 20 0

/-- A stand-in for `hashlib.sha1(...).hexdigest()` used to instantiate
hypothesis-bearing theorems at concrete inputs: like real SHA-1 it always
produces 40 characters. -/
def sha1stub40 : Bytes → PyStr := fun _ => List.replicate 40 'a'

/-- Identity stand-in for `zlib.compress` / `zlib.decompress` (a lossless
pair) used to instantiate theorems at concrete inputs. -/
def idBytes : Bytes → Bytes := fun b => b

/-- The string `blob` as a character list. -/
def blobStr : PyStr := ['b', 'l', 'o', 'b']

/-- The bytes of `DIRC` followed by big-endian version 2 and entry count 0:
the 12-byte header of an empty version-2 index file. -/
def emptyIndexHeader : Bytes :=
  [68, 73, 82, 67] ++ [0, 0, 0, 2] ++ [0, 0, 0, 0]

/-- An index file satisfying the spec's index-file invariant: the 12-byte
empty header followed by the 20-byte digest of everything preceding the
trailer. -/
def emptyIndexFile (sha1 : Bytes → Bytes) : Bytes :=
  emptyIndexHeader ++ sha1 emptyIndexHeader

/-- A store holding exactly one object file, in shard directory `ab`, used
to exhibit `find_object`'s behaviour on a prefix whose shard directory does
not exist. -/
def storeWithAb : ObjectStore :=
  ⟨[(['a', 'b'], [(List.replicate 38 'c', [7])])]⟩

/-- A minimal well-formed tree record: mode token `0`, path `a`, NUL, and a
20-byte zero digest (24 bytes in all). -/
def treeRec0 : Bytes := [48, 32, 97] ++ [0] ++ List.replicate 20 0

/-- The entry `read_tree` decodes from `treeRec0`. -/
def treeEntry0 : Nat × PyStr × PyStr := (0, ['a'], List.replicate 40 '0')

/-- The tree payload of the spec's concrete example:
`b"100644 a.txt\x00" + bytes(20)`. -/
def treePayloadExample : Bytes :=
  pyEncode (['1', '0', '0', '6', '4', '4'] ++ [' '] ++ ['a', '.', 't', 'x', 't'])
    ++ [0] ++ List.replicate 20 0

/-- A tree payload whose record header holds a path containing a space:
`b"100644 a b\x00" + bytes(20)`. -/
def treePayloadSpacePath : Bytes :=
  pyEncode (['1', '0', '0', '6', '4', '4'] ++ [' '] ++ ['a', ' ', 'b'])
    ++ [0] ++ List.replicate 20 0

/-- Well-formedness of a store as produced by `hash_object` writes: in
every shard directory all file names have 38 characters (digest length 40
minus the 2-character shard name) and are distinct. -/
def StoreNamesWF (st : ObjectStore) : Prop :=
  ∀ d ∈ st.dirs, (∀ f ∈ d.2, f.1.length = 38) ∧ (d.2.map (fun f => f.1)).Nodup

lemma pySplitGo_append (l cs acc : PyStr)
    (h : ∀ c ∈ l, isSpaceCh c = false) :
    pySplitGo (l ++ cs) acc = pySplitGo cs (l.reverse ++ acc) := by
  induction l generalizing acc with
  | nil => simp
  | cons c l ih =>
    have hc : isSpaceCh c = false := h c (by simp)
    have hl : ∀ x ∈ l, isSpaceCh x = false := fun x hx => h x (by simp [hx])
    simp only [List.cons_append, pySplitGo, hc, Bool.false_eq_true, if_false,
      List.append_eq]
    rw [ih _ hl]
    simp

lemma pySplitGo_nil (acc : PyStr) (h : acc ≠ []) :
    pySplitGo [] acc = [acc.reverse] := by
  simp [pySplitGo, h]

lemma pySplitGo_space (cs acc : PyStr) (h : acc ≠ []) :
    pySplitGo (' ' :: cs) acc = acc.reverse :: pySplitGo cs [] := by
  have hs : isSpaceCh ' ' = true := by decide
  simp [pySplitGo, hs, h]

lemma pySplit_single (b : PyStr) (hb : b ≠ [])
    (hsb : ∀ c ∈ b, isSpaceCh c = false) :
    pySplitGo b [] = [b] := by
  have h2 := pySplitGo_append b [] [] hsb
  simp only [List.append_nil] at h2
  rw [h2, pySplitGo_nil _ (by simpa using hb)]
  simp

lemma pySplit_pair (a b : PyStr) (ha : a ≠ []) (hb : b ≠ [])
    (hsa : ∀ c ∈ a, isSpaceCh c = false)
    (hsb : ∀ c ∈ b, isSpaceCh c = false) :
    pySplit (a ++ ' ' :: b) = [a, b] := by
  unfold pySplit
  rw [pySplitGo_append a (' ' :: b) [] hsa, List.append_nil,
    pySplitGo_space _ _ (by simpa using ha), List.reverse_reverse,
    pySplit_single b hb hsb]

lemma digitCh_toNat {d : Nat} (h : d < 10) : (digitCh d).toNat = 48 + d := by
  interval_cases d <;> decide

lemma isDigitCh_digitCh {d : Nat} (h : d < 10) : isDigitCh (digitCh d) = true := by
  interval_cases d <;> decide

lemma isDigitCh_props {c : Char} (h : isDigitCh c = true) :
    isSpaceCh c = false ∧ c.toNat < 128 ∧ c.toNat ≠ 0 := by
  simp only [isDigitCh, Bool.and_eq_true, decide_eq_true_eq] at h
  simp only [isSpaceCh, Bool.or_eq_false_iff, Bool.and_eq_false_iff,
    beq_eq_false_iff_ne, ne_eq, decide_eq_false_iff_not, not_le]
  omega

lemma isOctCh_props {c : Char} (h : isOctCh c = true) :
    isSpaceCh c = false ∧ c.toNat < 128 ∧ c.toNat ≠ 0 := by
  simp only [isOctCh, Bool.and_eq_true, decide_eq_true_eq] at h
  simp only [isSpaceCh, Bool.or_eq_false_iff, Bool.and_eq_false_iff,
    beq_eq_false_iff_ne, ne_eq, decide_eq_false_iff_not, not_le]
  omega

lemma natReprAux_ok : ∀ fuel n, n < fuel →
    natReprAux fuel n ≠ [] ∧ (∀ c ∈ natReprAux fuel n, isDigitCh c = true) ∧
      (natReprAux fuel n).foldl (fun a c => 10 * a + (c.toNat - 48)) 0 = n := by
  intro fuel
  induction fuel with
  | zero => intro n h; omega
  | succ fuel ih =>
    intro n h
    by_cases h10 : n < 10
    · refine ⟨by simp [natReprAux, h10], ?_, ?_⟩
      · intro c hc
        simp only [natReprAux, h10, if_true, List.mem_singleton] at hc
        subst hc
        exact isDigitCh_digitCh h10
      · simp [natReprAux, h10, digitCh_toNat h10]
    · have hn : 0 < n := by omega
      have hdivlt : n / 10 < n := Nat.div_lt_self hn (by omega)
      have hdiv : n / 10 < fuel := by omega
      obtain ⟨ih1, ih2, ih3⟩ := ih (n / 10) hdiv
      have hmod : n % 10 < 10 := Nat.mod_lt _ (by omega)
      simp only [natReprAux, h10, if_false]
      refine ⟨by simp, ?_, ?_⟩
      · intro c hc
        rcases List.mem_append.mp hc with hc | hc
        · exact ih2 c hc
        · simp only [List.mem_singleton] at hc
          subst hc
          exact isDigitCh_digitCh hmod
      · rw [List.foldl_append, ih3]
        simp only [List.foldl_cons, List.foldl_nil, digitCh_toNat hmod]
        omega

lemma parseDec_natRepr (n : Nat) : parseDec (natRepr n) = some n := by
  obtain ⟨h1, h2, h3⟩ := natReprAux_ok (n + 1) n (by omega)
  unfold parseDec natRepr
  rw [if_neg, h3]
  simp only [Bool.or_eq_true, List.isEmpty_iff, Bool.not_eq_true']
  push_neg
  refine ⟨h1, ?_⟩
  simp only [ne_eq, Bool.not_eq_false, List.all_eq_true]
  intro x hx
  simpa using h2 x hx

lemma natRepr_ne_nil (n : Nat) : natRepr n ≠ [] :=
  (natReprAux_ok (n + 1) n (by omega)).1

lemma natRepr_chars (n : Nat) :
    ∀ c ∈ natRepr n, isSpaceCh c = false ∧ c.toNat < 128 ∧ c.toNat ≠ 0 :=
  fun c hc => isDigitCh_props ((natReprAux_ok (n + 1) n (by omega)).2.1 c hc)

lemma pyDecode_pyEncode (s : PyStr) (h : ∀ c ∈ s, c.toNat < 128) :
    pyDecode (pyEncode s) = some s := by
  unfold pyDecode pyEncode
  rw [if_pos]
  · congr 1
    rw [List.map_map]
    have : ∀ c ∈ s, (Char.ofNat ∘ Char.toNat) c = id c := by
      intro c _
      simp [Char.ofNat_toNat]
    rw [List.map_congr_left this, List.map_id]
  · simp only [List.all_eq_true, List.mem_map, decide_eq_true_eq]
    rintro v ⟨c, hc, rfl⟩
    exact h c hc

lemma pyIndexNul_append (l r : Bytes) (h : ∀ x ∈ l, x ≠ 0) :
    pyIndexNul (l ++ 0 :: r) = some l.length := by
  induction l with
  | nil => simp [pyIndexNul]
  | cons b l ih =>
    have hb : b ≠ 0 := h b (by simp)
    simp [pyIndexNul, hb, ih (fun x hx => h x (by simp [hx]))]

lemma pyIndexNul_lt {l : Bytes} {k : Nat} (h : pyIndexNul l = some k) :
    k < l.length := by
  induction l generalizing k with
  | nil => simp [pyIndexNul] at h
  | cons b l ih =>
    simp only [pyIndexNul] at h
    split at h
    · simp only [Option.some_inj] at h
      simp only [List.length_cons]
      omega
    · cases hl : pyIndexNul l with
      | none => rw [hl] at h; simp at h
      | some j =>
        rw [hl] at h
        simp only [Option.map_some', Option.some_inj] at h
        have := ih hl
        simp only [List.length_cons]
        omega

lemma writeObjToDirs_lookup (dirs : List (PyStr × List (PyStr × Bytes)))
    (sh nm : PyStr) (c : Bytes) :
    ((writeObjToDirs dirs sh nm c).find? (fun e => e.1 == sh)).map (fun e => e.2)
      = some (((dirs.find? (fun e => e.1 == sh)).map (fun e => e.2)).getD []
          ++ [(nm, c)]) := by
  induction dirs with
  | nil => simp [writeObjToDirs]
  | cons d rest ih =>
    obtain ⟨s, fs⟩ := d
    by_cases hs : s = sh
    · subst hs
      simp [writeObjToDirs]
    · have hs' : (s == sh) = false := by simp [hs]
      simp only [writeObjToDirs, hs', Bool.false_eq_true, if_false]
      rw [List.find?_cons_of_neg _ (by simp [hs]),
        List.find?_cons_of_neg _ (by simp [hs])]
      exact ih

lemma lookupDir_writeObj (st : ObjectStore) (sh nm : PyStr) (c : Bytes) :
    lookupDir (writeObj st sh nm c) sh
      = some ((lookupDir st sh).getD [] ++ [(nm, c)]) := by
  unfold lookupDir writeObj
  exact writeObjToDirs_lookup st.dirs sh nm c

lemma writeObjToDirs_count (dirs : List (PyStr × List (PyStr × Bytes)))
    (sh nm : PyStr) (c : Bytes) :
    ((writeObjToDirs dirs sh nm c).map (fun d => d.2.length)).sum
      = ((dirs.map (fun d => d.2.length)).sum) + 1 := by
  induction dirs with
  | nil => simp [writeObjToDirs]
  | cons d rest ih =>
    obtain ⟨s, fs⟩ := d
    by_cases hs : s = sh
    · subst hs
      simp only [writeObjToDirs, beq_self_eq_true, if_true, List.map_cons,
        List.sum_cons, List.length_append, List.length_cons, List.length_nil]
      omega
    · have hs' : (s == sh) = false := by simp [hs]
      simp only [writeObjToDirs, hs', Bool.false_eq_true, if_false,
        List.map_cons, List.sum_cons, ih]
      omega

lemma countFiles_writeObj (st : ObjectStore) (sh nm : PyStr) (c : Bytes) :
    countFiles (writeObj st sh nm c) = countFiles st + 1 := by
  unfold countFiles writeObj
  exact writeObjToDirs_count st.dirs sh nm c

lemma pathExists_writeObj_self (st : ObjectStore) (sh nm : PyStr) (c : Bytes) :
    pathExists (writeObj st sh nm c) sh nm = true := by
  unfold pathExists
  rw [lookupDir_writeObj]
  simp

lemma find?_append_single {α : Type} (p : α → Bool) (l : List α) (x : α)
    (h : ∀ a ∈ l, p a = false) (hx : p x = true) :
    (l ++ [x]).find? p = some x := by
  induction l with
  | nil => simp [hx]
  | cons a l ih =>
    rw [List.cons_append, List.find?_cons_of_neg _ (by simp [h a (by simp)])]
    exact ih fun a ha => h a (by simp [ha])

lemma pathExists_false_all {st : ObjectStore} {sh nm : PyStr} {fs : List (PyStr × Bytes)}
    (h : pathExists st sh nm = false) (hl : lookupDir st sh = some fs) :
    ∀ f ∈ fs, (f.1 == nm) = false := by
  unfold pathExists at h
  rw [hl] at h
  simpa [List.any_eq_false] using h

lemma readFileStore_writeObj (st : ObjectStore) (sh nm : PyStr) (c : Bytes)
    (h : pathExists st sh nm = false) :
    readFileStore (writeObj st sh nm c) sh nm = some c := by
  unfold readFileStore
  rw [lookupDir_writeObj]
  simp only [Option.some_bind]
  rw [find?_append_single _ _ _ ?_ (by simp)]
  · simp
  · cases hl : lookupDir st sh with
    | none => simp [hl]
    | some fs =>
      simpa using pathExists_false_all h hl

lemma readFileStore_of_pathExists {st : ObjectStore} {sh nm : PyStr}
    (h : pathExists st sh nm = true) :
    ∃ cnt, readFileStore st sh nm = some cnt := by
  unfold pathExists at h
  cases hl : lookupDir st sh with
  | none => rw [hl] at h; simp at h
  | some fs =>
    rw [hl] at h
    have hsome : (fs.find? (fun f => f.1 == nm)).isSome := by
      rw [List.find?_isSome]
      simpa [List.any_eq_true] using h
    obtain ⟨g, hg⟩ := Option.isSome_iff_exists.mp hsome
    exact ⟨g.2, by simp [readFileStore, hl, hg]⟩

lemma filter_eq_single {l : List PyStr} {nm : PyStr} {P : PyStr → Bool}
    (hmem : nm ∈ l) (hnd : l.Nodup)
    (hiff : ∀ n ∈ l, (P n = true ↔ n = nm)) : l.filter P = [nm] := by
  induction l with
  | nil => simp at hmem
  | cons a l ih =>
    have hnd' : l.Nodup := (List.nodup_cons.mp hnd).2
    have hna : a ∉ l := (List.nodup_cons.mp hnd).1
    rcases List.mem_cons.mp hmem with heq | hm
    · have hPa : P a = true := (hiff a (by simp)).mpr heq.symm
      have hfl : l.filter P = [] := by
        rw [List.filter_eq_nil_iff]
        intro n hn hPn
        have hn2 : n = nm := (hiff n (by simp [hn])).mp hPn
        exact hna (by rwa [hn2, heq] at hn)
      rw [List.filter_cons_of_pos hPa, hfl, heq]
    · have hane : a ≠ nm := fun he => hna (by rwa [← he] at hm)
      have hPa : P a = false := by
        cases hpa : P a with
        | false => rfl
        | true => exact absurd ((hiff a (by simp)).mp hpa) hane
      rw [List.filter_cons_of_neg (by simp [hPa])]
      exact ih hm hnd' fun n hn => hiff n (by simp [hn])

lemma isPrefixOf_eq_of_length {a b : PyStr} (h : a.isPrefixOf b = true)
    (hl : a.length = b.length) : a = b :=
  List.IsPrefix.eq_of_length (List.isPrefixOf_iff_prefix.mp h) hl

lemma isPrefixOf_self (a : PyStr) : a.isPrefixOf a = true :=
  List.isPrefixOf_iff_prefix.mpr (List.prefix_refl a)

lemma mkEntryCode_eq_spec (rest : Bytes) (path : PyStr) :
    mkEntryCode (rest.take 62) path = mkEntrySpec rest path := by
  unfold mkEntryCode mkEntrySpec
  norm_num [List.drop_take, List.take_take]

lemma entryLen_eq (L : Nat) : (62 + L + 8) / 8 * 8 = entryLenSpec L := by
  unfold entryLenSpec
  omega

lemma parseEntries_eq_spec_aux :
    ∀ n (rest : Bytes), rest.length ≤ n → parseEntries rest = parseEntriesSpec rest := by
  intro n
  induction n with
  | zero =>
    intro rest h
    rw [parseEntries, parseEntriesSpec]
    rw [dif_neg (by omega), dif_pos (by omega)]
  | succ n ih =>
    intro rest h
    by_cases h62 : 62 < rest.length
    · rw [parseEntries, parseEntriesSpec]
      rw [dif_pos h62, dif_neg (by omega)]
      cases hk : pyIndexNul (rest.drop 62) with
      | none => rfl
      | some k =>
        simp only
        cases hd : pyDecode ((rest.drop 62).take k) with
        | none => rfl
        | some path =>
          simp only
          have hdroplen : ∀ L, 63 ≤ L + 1 →
              (rest.drop (entryLenSpec L)).length ≤ n := by
            intro L hL
            simp only [List.length_drop, entryLenSpec]
            omega
          rw [entryLen_eq, mkEntryCode_eq_spec,
            ih _ (by simp only [List.length_drop, entryLenSpec]; omega)]
    · rw [parseEntries, parseEntriesSpec]
      rw [dif_neg h62, dif_pos (by omega)]

/-- C5: the entry-region walk of `read_index` reads, per entry, ten
big-endian 4-byte fields, a 20-byte digest and a 2-byte flags field (62
fixed bytes) followed by a NUL-terminated path; it consumes the record
length rounded up to the next multiple of 8 with at least one NUL of
padding, and stops when fewer than 63 bytes remain before the trailer:
the source walk coincides with the walk phrased exactly in those terms. -/
theorem parseEntries_refines_spec (rest : Bytes) :
    parseEntries rest = parseEntriesSpec rest :=
  parseEntries_eq_spec_aux rest.length rest (le_refl _)

/-- Witness for C5: the equivalence applied at a concrete entry region. -/
theorem parseEntries_refines_spec_witness :
    parseEntries (List.replicate 70 0) = parseEntriesSpec (List.replicate 70 0) :=
  parseEntries_refines_spec (List.replicate 70 0)

/-- C2 (code bug): the source computes `sha1(data[:-20])` but asserts it
equal to `data[:-20]` itself instead of the trailing 20 bytes `data[-20:]`.
Consequently an index file satisfying the documented invariant — its last
20 bytes equal the SHA-1 of everything before them (first conjunct) — is
rejected with the checksum failure (second conjunct), for every 20-byte
digest function. -/
theorem read_index_rejects_valid_checksum (sha1 : Bytes → Bytes)
    (hlen : ∀ b, (sha1 b).length = 20) :
    (emptyIndexFile sha1).drop ((emptyIndexFile sha1).length - 20)
        = sha1 ((emptyIndexFile sha1).take ((emptyIndexFile sha1).length - 20))
    ∧ read_index sha1 (some (emptyIndexFile sha1)) = .error .checksumMismatch := by
  have e1 : emptyIndexFile sha1 = emptyIndexHeader ++ sha1 emptyIndexHeader := rfl
  have hh : emptyIndexHeader.length = 12 := rfl
  have hlen32 : (emptyIndexFile sha1).length = 32 := by
    rw [e1, List.length_append, hh, hlen]
  have h12 : (32 : Nat) - 20 = 12 := by norm_num
  have htake : (emptyIndexFile sha1).take ((emptyIndexFile sha1).length - 20)
      = emptyIndexHeader := by
    rw [hlen32, h12, e1]
    exact List.take_left' hh
  have hdrop : (emptyIndexFile sha1).drop ((emptyIndexFile sha1).length - 20)
      = sha1 emptyIndexHeader := by
    rw [hlen32, h12, e1]
    exact List.drop_left' hh
  refine ⟨by rw [hdrop, htake], ?_⟩
  have hne : ¬ (sha1 ((emptyIndexFile sha1).take ((emptyIndexFile sha1).length - 20))
      = (emptyIndexFile sha1).take ((emptyIndexFile sha1).length - 20)) := by
    rw [htake]
    intro hEq
    have h1 := hlen emptyIndexHeader
    rw [hEq, hh] at h1
    omega
  simp only [read_index, if_neg hne]

/-- Witness for C2: the rejection, at the all-zero stand-in digest. -/
theorem read_index_rejects_valid_checksum_witness :
    read_index sha1stub (some (emptyIndexFile sha1stub)) = .error .checksumMismatch :=
  (read_index_rejects_valid_checksum sha1stub (fun b => by simp [sha1stub])).2

/-- C8 (amended): every index file shorter than 32 bytes fails to decode,
but with the checksum failure — the source performs no length check and
has no truncation error; the digest has 20 bytes while the compared slice
`data[:-20]` has fewer than 12, so the (mis-directed) checksum comparison
always fails first. -/
theorem read_index_short_fails (sha1 : Bytes → Bytes)
    (hlen : ∀ b, (sha1 b).length = 20) (data : Bytes)
    (hshort : data.length < 32) :
    read_index sha1 (some data) = .error .checksumMismatch := by
  have hne : ¬ (sha1 (data.take (data.length - 20)) = data.take (data.length - 20)) := by
    intro hEq
    have h1 := hlen (data.take (data.length - 20))
    rw [hEq, List.length_take] at h1
    omega
  simp only [read_index, if_neg hne]

/-- Witness for C8: an existing but empty index file fails the checksum
comparison. -/
theorem read_index_short_fails_witness :
    read_index sha1stub (some []) = .error .checksumMismatch :=
  read_index_short_fails sha1stub (fun b => by simp [sha1stub]) [] (by norm_num)

/-- Counterexample for C8 as stated: a 4-byte index file fails with the
checksum failure, which is not the `TruncatedIndex` error the claim
prescribes (the source has no length check producing such an error). -/
theorem read_index_short_cex :
    read_index sha1stub (some [68, 73, 82, 67]) = .error .checksumMismatch
      ∧ IndexErr.checksumMismatch ≠ IndexErr.truncatedIndex :=
  ⟨rfl, by decide⟩

/-- C9: when the index file does not exist, `read_index` returns the empty
entry list rather than failing. -/
theorem read_index_missing_file (sha1 : Bytes → Bytes) :
    read_index sha1 none = .ok [] := rfl

/-- Witness for C9: the same at the stand-in digest function. -/
theorem read_index_missing_file_witness : read_index sha1stub none = .ok [] :=
  read_index_missing_file sha1stub

lemma parseOct_props {m : PyStr} {mv : Nat} (h : parseOct m = some mv) :
    m ≠ [] ∧ ∀ c ∈ m, isOctCh c = true := by
  unfold parseOct at h
  split at h
  · exact absurd h (by simp)
  · rename_i hcond
    simp only [Bool.or_eq_true, Bool.not_eq_true', List.isEmpty_iff, not_or,
      Bool.not_eq_false] at hcond
    obtain ⟨h1, h2⟩ := hcond
    refine ⟨h1, fun c hc => ?_⟩
    simpa using List.all_eq_true.mp h2 c hc

lemma read_tree_aux_record (f : Nat) (m p : PyStr) (mv : Nat) (rest : Bytes)
    (hm : parseOct m = some mv) (hp : p ≠ [])
    (hpc : ∀ c ∈ p, isSpaceCh c = false ∧ c.toNat < 128 ∧ c.toNat ≠ 0) :
    read_tree_aux (f + 1) (pyEncode (m ++ [' '] ++ p) ++ 0 :: rest)
      = (read_tree_aux f (rest.drop 20)).map
          (fun es => (mv, p, bytesHex (rest.take 20)) :: es) := by
  obtain ⟨hm1, hm2⟩ := parseOct_props hm
  have hchars : ∀ c ∈ m ++ [' '] ++ p, c.toNat < 128 ∧ c.toNat ≠ 0 := by
    intro c hc
    rcases List.mem_append.mp hc with hc | hc
    · rcases List.mem_append.mp hc with hc | hc
      · have h3 := isOctCh_props (hm2 c hc)
        exact ⟨h3.2.1, h3.2.2⟩
      · simp only [List.mem_singleton] at hc
        subst hc
        refine ⟨by decide, by decide⟩
    · exact ⟨(hpc c hc).2.1, (hpc c hc).2.2⟩
  have hnz : ∀ x ∈ pyEncode (m ++ [' '] ++ p), x ≠ 0 := by
    intro x hx
    simp only [pyEncode, List.mem_map] at hx
    obtain ⟨c, hc, rfl⟩ := hx
    exact (hchars c hc).2
  have hidx : pyIndexNul (pyEncode (m ++ [' '] ++ p) ++ 0 :: rest)
      = some (pyEncode (m ++ [' '] ++ p)).length :=
    pyIndexNul_append _ _ hnz
  have hdec : pyDecode (pyEncode (m ++ [' '] ++ p)) = some (m ++ [' '] ++ p) :=
    pyDecode_pyEncode _ fun c hc => (hchars c hc).1
  have hsplit : pySplit (m ++ [' '] ++ p) = [m, p] := by
    have he : m ++ [' '] ++ p = m ++ ' ' :: p := by simp
    rw [he]
    exact pySplit_pair m p hm1 hp
      (fun c hc => (isOctCh_props (hm2 c hc)).1)
      (fun c hc => (hpc c hc).1)
  have hdropE : (pyEncode (m ++ [' '] ++ p) ++ 0 :: rest).drop
      ((pyEncode (m ++ [' '] ++ p)).length + 1) = rest := by
    have he : pyEncode (m ++ [' '] ++ p) ++ 0 :: rest
        = (pyEncode (m ++ [' '] ++ p) ++ [0]) ++ rest := by simp
    rw [he]
    exact List.drop_left' (by simp)
  simp only [read_tree_aux, hidx, List.take_left, hdec, hsplit, hm]
  rw [← List.drop_drop, hdropE]
  cases haux : read_tree_aux f (rest.drop 20) <;> simp [haux, Except.map]

lemma read_tree_aux_len :
    ∀ (fuel : Nat) (data : Bytes) (es : List (Nat × PyStr × PyStr)),
      read_tree_aux fuel data = .ok es → es.length ≤ fuel := by
  intro fuel
  induction fuel with
  | zero =>
    intro data es h
    simp only [read_tree_aux] at h
    cases h
    simp
  | succ fuel ih =>
    intro data es h
    simp only [read_tree_aux] at h
    split at h
    · cases h
      simp
    · split at h
      · exact absurd h (by simp)
      · split at h
        · split at h
          · exact absurd h (by simp)
          · split at h
            · exact absurd h (by simp)
            · rename_i es' haux
              cases h
              simp only [List.length_cons]
              exact Nat.succ_le_succ (ih _ _ haux)
        · exact absurd h (by simp)

lemma read_tree_aux_replicate :
    ∀ (fuel n : Nat),
      read_tree_aux fuel ((List.replicate n treeRec0).flatten)
        = .ok (List.replicate (min fuel n) treeEntry0) := by
  intro fuel
  induction fuel with
  | zero => intro n; simp [read_tree_aux]
  | succ fuel ih =>
    intro n
    cases n with
    | zero => simp [read_tree_aux, pyIndexNul]
    | succ n =>
      have hflat : (List.replicate (n + 1) treeRec0).flatten
          = treeRec0 ++ (List.replicate n treeRec0).flatten := by
        rw [List.replicate_succ, List.flatten_cons]
      have hshape : treeRec0 ++ (List.replicate n treeRec0).flatten
          = pyEncode (['0'] ++ [' '] ++ ['a']) ++ 0 ::
              (List.replicate 20 0 ++ (List.replicate n treeRec0).flatten) := by
        simp [treeRec0, pyEncode]
      rw [hflat, hshape,
        read_tree_aux_record fuel ['0'] ['a'] 0 _ (by decide) (by decide) (by decide)]
      rw [List.take_left' (by simp), List.drop_left' (by simp), ih n]
      have hhex : bytesHex (List.replicate 20 0) = List.replicate 40 '0' := by decide
      simp only [Except.map, treeEntry0, hhex]
      rw [Nat.succ_min_succ]
      rfl

/-- C7 (amended): tree decoding never returns more than 1000 entries — the
`for _ in range(1000)` loop is a hard cap — but a payload with more records
is silently truncated to the first 1000 entries and returned successfully
rather than causing a `MalformedTree` failure. -/
theorem read_tree_entry_cap (data : Bytes) (es : List (Nat × PyStr × PyStr))
    (h : read_tree data = .ok es) : es.length ≤ 1000 :=
  read_tree_aux_len 1000 data es h

/-- Witness for C7: the cap theorem applied to a one-record payload. -/
theorem read_tree_entry_cap_witness :
    ([treeEntry0] : List (Nat × PyStr × PyStr)).length ≤ 1000 :=
  read_tree_entry_cap treeRec0 [treeEntry0] (by rfl)

/-- Counterexample for C7 as stated: a payload of 1001 well-formed records
decodes successfully to exactly the first 1000 entries — silent truncation,
not a `MalformedTree` failure. -/
theorem read_tree_truncation_cex :
    read_tree ((List.replicate 1001 treeRec0).flatten)
      = .ok (List.replicate 1000 treeEntry0) := by
  have h := read_tree_aux_replicate 1000 1001
  rw [show min 1000 1001 = 1000 from by norm_num] at h
  exact h

/-- C6 (amended): tree decoding takes the bytes up to the next NUL and
whitespace-splits them into exactly a mode token and a path token — the
source uses `str.split()` with unpacking into two names, which tokenizes on
whitespace runs and raises when the token count differs from two, rather
than splitting on the first space — parses the mode as a base-8 integer,
and hex-encodes the 20 bytes after the NUL as the digest; the empty payload
decodes to the empty sequence, and the spec's example record
`b"100644 a.txt\x00" + bytes(20)` to the single entry
`(0o100644, "a.txt", "00"*20)`. -/
theorem read_tree_record_spec (m p : PyStr) (mv : Nat) (rest : Bytes)
    (hm : parseOct m = some mv) (hp : p ≠ [])
    (hpc : ∀ c ∈ p, isSpaceCh c = false ∧ c.toNat < 128 ∧ c.toNat ≠ 0) :
    read_tree [] = .ok []
    ∧ read_tree treePayloadExample
        = .ok [(33188, ['a', '.', 't', 'x', 't'], List.replicate 40 '0')]
    ∧ read_tree (pyEncode (m ++ [' '] ++ p) ++ 0 :: rest)
        = (read_tree_aux 999 (rest.drop 20)).map
            (fun es => (mv, p, bytesHex (rest.take 20)) :: es) := by
  refine ⟨rfl, by rfl, ?_⟩
  exact read_tree_aux_record 999 m p mv rest hm hp hpc

/-- Witness for C6: the record characterization at a concrete record. -/
theorem read_tree_record_spec_witness :
    read_tree [] = .ok []
    ∧ read_tree treePayloadExample
        = .ok [(33188, ['a', '.', 't', 'x', 't'], List.replicate 40 '0')]
    ∧ read_tree (pyEncode (['7'] ++ [' '] ++ ['z']) ++ 0 :: [1])
        = (read_tree_aux 999 (([1] : Bytes).drop 20)).map
            (fun es => (7, ['z'], bytesHex (([1] : Bytes).take 20)) :: es) :=
  read_tree_record_spec ['7'] ['z'] 7 [1] (by decide) (by decide) (by decide)

/-- Counterexample for C6 as stated: the record `b"100644 a b\x00"` followed
by 20 NUL bytes — whose path contains a space — fails to decode (Python
raises a `ValueError` unpacking three tokens into two), whereas a split on
the first space would yield mode `0o100644` and path `"a b"`. -/
theorem read_tree_space_path_cex :
    read_tree treePayloadSpacePath = .error TreeErr.unpackErr := rfl

/-- C10 (amended): when a record header parses into a mode and a path and
fewer than 20 bytes follow the NUL terminator, `read_tree` succeeds and
returns an entry whose digest is the hex encoding of just the remaining
bytes — the decoder never checks that a full 20-byte digest is present.
(The claim's universal form over all payloads fails: a payload whose
pre-NUL bytes do not form two tokens raises, see the counterexample.) -/
theorem read_tree_short_digest (m p : PyStr) (mv : Nat) (tail : Bytes)
    (hm : parseOct m = some mv) (hp : p ≠ [])
    (hpc : ∀ c ∈ p, isSpaceCh c = false ∧ c.toNat < 128 ∧ c.toNat ≠ 0)
    (hlen : tail.length < 20) :
    read_tree (pyEncode (m ++ [' '] ++ p) ++ 0 :: tail)
      = .ok [(mv, p, bytesHex tail)] := by
  have h1 : read_tree (pyEncode (m ++ [' '] ++ p) ++ 0 :: tail)
      = (read_tree_aux 999 (tail.drop 20)).map
          (fun es => (mv, p, bytesHex (tail.take 20)) :: es) :=
    read_tree_aux_record 999 m p mv tail hm hp hpc
  rw [h1, List.drop_eq_nil_of_le (by omega), List.take_of_length_le (by omega)]
  rfl

/-- Witness for C10: a record whose digest region has a single byte. -/
theorem read_tree_short_digest_witness :
    read_tree (pyEncode (['0'] ++ [' '] ++ ['a']) ++ 0 :: [171])
      = .ok [(0, ['a'], bytesHex [171])] :=
  read_tree_short_digest ['0'] ['a'] 0 [171] (by decide) (by decide) (by decide)
    (by norm_num)

/-- Counterexample for C10 as stated: the payload consisting of a single
NUL byte has fewer than 20 bytes (namely zero) after the NUL, yet
`read_tree` raises the unpack `ValueError` on the empty record header
instead of returning an entry. -/
theorem read_tree_bare_nul_cex :
    read_tree [0] = .error TreeErr.unpackErr := rfl

/-- C3 (amended): for every prefix of at least two characters,
`find_object` fails with the `FileNotFoundError` escaping from `os.listdir`
when the shard directory named by the first two characters does not exist
(not with the object-not-found `ValueError` the claim prescribes for a
store without such objects); when the directory exists it fails with the
object-not-found error on zero matching names, fails with the ambiguous
error reporting the candidate count on two or more matches, and returns the
unique match (from which the source builds the object path) otherwise. -/
theorem find_object_cases (st : ObjectStore) (pfx : PyStr) (h2 : 2 ≤ pfx.length) :
    (lookupDir st (pfx.take 2) = none →
      find_object st pfx = .error .fileNotFound)
    ∧ ∀ files, lookupDir st (pfx.take 2) = some files →
        ((files.map (fun f => f.1)).filter
            (fun n => (pfx.drop 2).isPrefixOf n) = [] →
          find_object st pfx = .error .notFound)
        ∧ (2 ≤ ((files.map (fun f => f.1)).filter
              (fun n => (pfx.drop 2).isPrefixOf n)).length →
          find_object st pfx = .error (.ambiguous
            (((files.map (fun f => f.1)).filter
              (fun n => (pfx.drop 2).isPrefixOf n)).length)))
        ∧ ∀ nm, (files.map (fun f => f.1)).filter
              (fun n => (pfx.drop 2).isPrefixOf n) = [nm] →
            find_object st pfx = .ok (pfx.take 2, nm) := by
  have hnlt : ¬ pfx.length < 2 := by omega
  refine ⟨?_, ?_⟩
  · intro hnone
    simp [find_object, hnlt, hnone]
  · intro files hsome
    refine ⟨?_, ?_, ?_⟩
    · intro hfil
      simp [find_object, hnlt, hsome, hfil]
    · intro hlen
      cases hfil : (files.map (fun f => f.1)).filter
          (fun n => (pfx.drop 2).isPrefixOf n) with
      | nil => rw [hfil] at hlen; simp at hlen
      | cons a l =>
        cases l with
        | nil => rw [hfil] at hlen; simp at hlen
        | cons b l2 =>
          rw [hfil] at hlen
          simp [find_object, hnlt, hsome, hfil]
    · intro nm hfil
      simp [find_object, hnlt, hsome, hfil]

/-- Witness for C3: on the one-object store, the unique-match arm resolves
the full digest to the stored name. -/
theorem find_object_cases_witness :
    find_object storeWithAb (['a', 'b'] ++ List.replicate 38 'c')
      = .ok (['a', 'b'], List.replicate 38 'c') := by
  have h := find_object_cases storeWithAb (['a', 'b'] ++ List.replicate 38 'c')
    (by simp)
  have h3 := (h.2 [(List.replicate 38 'c', [7])] (by rfl)).2.2
    (List.replicate 38 'c') (by decide)
  have he : (['a', 'b'] ++ List.replicate 38 'c').take 2 = ['a', 'b'] := by decide
  rw [he] at h3
  exact h3

/-- Counterexample for C3 as stated: on a store whose only shard directory
is `ab`, resolving prefix `zz` (no stored object shares its first two
characters) fails with the `FileNotFoundError` from `os.listdir` on the
missing directory, which is a different failure from the object-not-found
`ValueError`. -/
theorem find_object_missing_shard_cex :
    find_object storeWithAb ['z', 'z'] = .error FindErr.fileNotFound
    ∧ FindErr.fileNotFound ≠ FindErr.notFound :=
  ⟨rfl, by decide⟩

/-- C4: writing is idempotent: a second identical `hash_object` write
returns the same digest and leaves the store exactly as the first call left
it; a single write adds exactly one file when no file exists at the
digest's derived path and none otherwise; and when a file already exists at
that path the call is a pure no-op apart from returning the digest. -/
theorem hash_object_idempotent (sha1hex : Bytes → PyStr) (compress : Bytes → Bytes)
    (st : ObjectStore) (p : Bytes) (t : PyStr) :
    (hash_object sha1hex compress
        (hash_object sha1hex compress st p t true).2 p t true).1
      = (hash_object sha1hex compress st p t true).1
    ∧ (hash_object sha1hex compress
        (hash_object sha1hex compress st p t true).2 p t true).2
      = (hash_object sha1hex compress st p t true).2
    ∧ countFiles (hash_object sha1hex compress st p t true).2
      = countFiles st
          + (if pathExists st ((sha1hex (frameObj t p)).take 2)
                ((sha1hex (frameObj t p)).drop 2) then 0 else 1)
    ∧ (pathExists st ((sha1hex (frameObj t p)).take 2)
          ((sha1hex (frameObj t p)).drop 2) = true →
        (hash_object sha1hex compress st p t true).2 = st) := by
  by_cases hex : pathExists st ((sha1hex (frameObj t p)).take 2)
      ((sha1hex (frameObj t p)).drop 2) = true
  · simp [hash_object, hex]
  · simp only [Bool.not_eq_true] at hex
    simp [hash_object, hex, pathExists_writeObj_self, countFiles_writeObj]

lemma lookupDir_mem {st : ObjectStore} {sh : PyStr} {files : List (PyStr × Bytes)}
    (h : lookupDir st sh = some files) : ∃ e ∈ st.dirs, e.2 = files := by
  unfold lookupDir at h
  cases hf : st.dirs.find? (fun e => e.1 == sh) with
  | none => rw [hf] at h; simp at h
  | some e =>
    rw [hf] at h
    simp only [Option.map_some', Option.some_inj] at h
    exact ⟨e, List.mem_of_find?_eq_some hf, h⟩

lemma find_object_full (st' : ObjectStore) (d : PyStr) (hd40 : d.length = 40)
    (files : List (PyStr × Bytes))
    (hlk : lookupDir st' (d.take 2) = some files)
    (hmem : d.drop 2 ∈ files.map (fun f => f.1))
    (hlen38 : ∀ n ∈ files.map (fun f => f.1), n.length = 38)
    (hnd : (files.map (fun f => f.1)).Nodup) :
    find_object st' d = .ok (d.take 2, d.drop 2) := by
  have hnlt : ¬ d.length < 2 := by omega
  have hfil : (files.map (fun f => f.1)).filter
      (fun n => (d.drop 2).isPrefixOf n) = [d.drop 2] := by
    apply filter_eq_single hmem hnd
    intro n hn
    constructor
    · intro hpre
      exact (isPrefixOf_eq_of_length hpre
        (by rw [hlen38 n hn, List.length_drop, hd40])).symm
    · intro he
      rw [he]
      exact isPrefixOf_self _
  simp [find_object, hnlt, hlk, hfil]

lemma read_object_of_store (decompress : Bytes → Bytes) (st' : ObjectStore)
    (d : PyStr) (cnt p : Bytes) (t : PyStr)
    (ht : t = ['b', 'l', 'o', 'b'] ∨ t = ['t', 'r', 'e', 'e']
      ∨ t = ['c', 'o', 'm', 'm', 'i', 't'])
    (hd40 : d.length = 40)
    (files : List (PyStr × Bytes))
    (hlk : lookupDir st' (d.take 2) = some files)
    (hmem : d.drop 2 ∈ files.map (fun f => f.1))
    (hlen38 : ∀ n ∈ files.map (fun f => f.1), n.length = 38)
    (hnd : (files.map (fun f => f.1)).Nodup)
    (hread : readFileStore st' (d.take 2) (d.drop 2) = some cnt)
    (hdc : decompress cnt = frameObj t p) :
    read_object decompress st' d = .ok (t, p) := by
  have hfind := find_object_full st' d hd40 files hlk hmem hlen38 hnd
  have htfacts : t ≠ [] ∧ ∀ c ∈ t, isSpaceCh c = false ∧ c.toNat < 128 ∧ c.toNat ≠ 0 := by
    rcases ht with rfl | rfl | rfl <;> exact ⟨by decide, by decide⟩
  have hds := natRepr_chars p.length
  have hchars : ∀ c ∈ t ++ [' '] ++ natRepr p.length, c.toNat < 128 ∧ c.toNat ≠ 0 := by
    intro c hc
    rcases List.mem_append.mp hc with hc | hc
    · rcases List.mem_append.mp hc with hc | hc
      · exact ⟨(htfacts.2 c hc).2.1, (htfacts.2 c hc).2.2⟩
      · simp only [List.mem_singleton] at hc
        subst hc
        exact ⟨by decide, by decide⟩
    · exact ⟨(hds c hc).2.1, (hds c hc).2.2⟩
  have hnz : ∀ x ∈ pyEncode (t ++ [' '] ++ natRepr p.length), x ≠ 0 := by
    intro x hx
    simp only [pyEncode, List.mem_map] at hx
    obtain ⟨c, hc, rfl⟩ := hx
    exact (hchars c hc).2
  have hFshape : frameObj t p
      = pyEncode (t ++ [' '] ++ natRepr p.length) ++ 0 :: p := by
    simp [frameObj]
  have hidx : pyIndexNul (frameObj t p)
      = some (pyEncode (t ++ [' '] ++ natRepr p.length)).length := by
    rw [hFshape]
    exact pyIndexNul_append _ _ hnz
  have htake : (frameObj t p).take (pyEncode (t ++ [' '] ++ natRepr p.length)).length
      = pyEncode (t ++ [' '] ++ natRepr p.length) := by
    rw [hFshape]
    exact List.take_left _ _
  have hdec : pyDecode (pyEncode (t ++ [' '] ++ natRepr p.length))
      = some (t ++ [' '] ++ natRepr p.length) :=
    pyDecode_pyEncode _ fun c hc => (hchars c hc).1
  have hsplit : pySplit (t ++ [' '] ++ natRepr p.length) = [t, natRepr p.length] := by
    have he : t ++ [' '] ++ natRepr p.length = t ++ ' ' :: natRepr p.length := by simp
    rw [he]
    exact pySplit_pair t (natRepr p.length) htfacts.1 (natRepr_ne_nil _)
      (fun c hc => (htfacts.2 c hc).1) (fun c hc => (hds c hc).1)
  have hdropF : (frameObj t p).drop
      ((pyEncode (t ++ [' '] ++ natRepr p.length)).length + 1) = p := by
    rw [hFshape]
    have he : pyEncode (t ++ [' '] ++ natRepr p.length) ++ 0 :: p
        = (pyEncode (t ++ [' '] ++ natRepr p.length) ++ [0]) ++ p := by simp
    rw [he]
    exact List.drop_left' (by simp)
  simp only [read_object, hfind, hread, hdc, hidx, htake, hdec, hsplit,
    parseDec_natRepr, hdropF]
  simp

/-- C1: for every payload and every object type among blob, tree and
commit, writing with `hash_object` (write=True) and reading back with
`read_object` at the returned digest yields exactly the pair of type and
payload. This holds for every hex digest function of output length 40 and
every lossless compress/decompress pair (the properties of `hashlib.sha1`
and `zlib` the source relies on), on every store whose shard directories
hold distinct 38-character names (as `hash_object` writes produce) and
whose file at the digest's derived path, if one already exists, holds the
compressed framed object — the spec's collision-free trust invariant for
pre-existing files. -/
theorem write_read_roundtrip
    (sha1hex : Bytes → PyStr) (compress decompress : Bytes → Bytes)
    (hzlib : ∀ b, decompress (compress b) = b)
    (hlen40 : ∀ b, (sha1hex b).length = 40)
    (st : ObjectStore) (hwf : StoreNamesWF st)
    (p : Bytes) (t : PyStr)
    (ht : t = ['b', 'l', 'o', 'b'] ∨ t = ['t', 'r', 'e', 'e']
      ∨ t = ['c', 'o', 'm', 'm', 'i', 't'])
    (hfresh : ∀ c, readFileStore st ((sha1hex (frameObj t p)).take 2)
        ((sha1hex (frameObj t p)).drop 2) = some c → c = compress (frameObj t p)) :
    read_object decompress (hash_object sha1hex compress st p t true).2
        (hash_object sha1hex compress st p t true).1
      = .ok (t, p) := by
  have hd40 : (sha1hex (frameObj t p)).length = 40 := hlen40 _
  have h1 : (hash_object sha1hex compress st p t true).1 = sha1hex (frameObj t p) := by
    simp only [hash_object, if_true]
    split <;> rfl
  by_cases hex : pathExists st ((sha1hex (frameObj t p)).take 2)
      ((sha1hex (frameObj t p)).drop 2) = true
  · have h2 : (hash_object sha1hex compress st p t true).2 = st := by
      simp [hash_object, hex]
    rw [h1, h2]
    obtain ⟨files, hlk⟩ : ∃ files,
        lookupDir st ((sha1hex (frameObj t p)).take 2) = some files := by
      unfold pathExists at hex
      cases hl : lookupDir st ((sha1hex (frameObj t p)).take 2) with
      | none => rw [hl] at hex; simp at hex
      | some fs => exact ⟨fs, rfl⟩
    have hmem : (sha1hex (frameObj t p)).drop 2 ∈ files.map (fun f => f.1) := by
      unfold pathExists at hex
      rw [hlk] at hex
      simp only [List.any_eq_true, beq_iff_eq] at hex
      obtain ⟨f, hf, hfe⟩ := hex
      exact hfe ▸ List.mem_map_of_mem _ hf
    obtain ⟨e, he, he2⟩ := lookupDir_mem hlk
    have hfacts := hwf e he
    have hlen38 : ∀ n ∈ files.map (fun f => f.1), n.length = 38 := by
      intro n hn
      simp only [List.mem_map] at hn
      obtain ⟨f, hf, rfl⟩ := hn
      exact hfacts.1 f (he2 ▸ hf)
    have hnd : (files.map (fun f => f.1)).Nodup := he2 ▸ hfacts.2
    obtain ⟨cnt, hread⟩ := readFileStore_of_pathExists hex
    exact read_object_of_store decompress st _ cnt p t ht hd40 files hlk hmem
      hlen38 hnd hread (by rw [hfresh cnt hread, hzlib])
  · simp only [Bool.not_eq_true] at hex
    have h2 : (hash_object sha1hex compress st p t true).2
        = writeObj st ((sha1hex (frameObj t p)).take 2)
            ((sha1hex (frameObj t p)).drop 2) (compress (frameObj t p)) := by
      simp [hash_object, hex]
    rw [h1, h2]
    have hlk := lookupDir_writeObj st ((sha1hex (frameObj t p)).take 2)
      ((sha1hex (frameObj t p)).drop 2) (compress (frameObj t p))
    have hread := readFileStore_writeObj st ((sha1hex (frameObj t p)).take 2)
      ((sha1hex (frameObj t p)).drop 2) (compress (frameObj t p)) hex
    have holdf : (∀ n ∈ ((lookupDir st ((sha1hex (frameObj t p)).take 2)).getD
          []).map (fun f => f.1), n.length = 38)
        ∧ (((lookupDir st ((sha1hex (frameObj t p)).take 2)).getD
          []).map (fun f => f.1)).Nodup
        ∧ (sha1hex (frameObj t p)).drop 2 ∉ ((lookupDir st
          ((sha1hex (frameObj t p)).take 2)).getD []).map (fun f => f.1) := by
      cases hl : lookupDir st ((sha1hex (frameObj t p)).take 2) with
      | none => simp
      | some fs =>
        obtain ⟨e, he, he2⟩ := lookupDir_mem hl
        have hfacts := hwf e he
        have hnotin : (sha1hex (frameObj t p)).drop 2 ∉ fs.map (fun f => f.1) := by
          intro hin
          simp only [List.mem_map] at hin
          obtain ⟨f, hf, hfe⟩ := hin
          have hpf := pathExists_false_all hex hl f hf
          simp [hfe] at hpf
        refine ⟨?_, ?_, ?_⟩ <;> simp only [Option.getD_some]
        · intro n hn
          simp only [List.mem_map] at hn
          obtain ⟨f, hf, rfl⟩ := hn
          exact hfacts.1 f (he2 ▸ hf)
        · exact he2 ▸ hfacts.2
        · exact hnotin
    refine read_object_of_store decompress _ _ (compress (frameObj t p)) p t ht hd40
      ((lookupDir st ((sha1hex (frameObj t p)).take 2)).getD []
        ++ [((sha1hex (frameObj t p)).drop 2, compress (frameObj t p))])
      hlk ?_ ?_ ?_ hread (hzlib _)
    · simp
    · intro n hn
      rw [List.map_append] at hn
      rcases List.mem_append.mp hn with hn | hn
      · exact holdf.1 n hn
      · simp only [List.map_cons, List.map_nil, List.mem_singleton] at hn
        rw [hn, List.length_drop, hd40]
    · rw [List.map_append]
      simp only [List.map_cons, List.map_nil]
      rw [List.nodup_append]
      exact ⟨holdf.2.1, List.nodup_singleton _,
        by simpa [List.disjoint_right] using holdf.2.2⟩

/-- Witness for C1: the round trip at a concrete payload, starting from the
empty store, with the stand-in digest function and the identity codec. -/
theorem write_read_roundtrip_witness :
    read_object idBytes
        (hash_object sha1stub40 idBytes ⟨[]⟩ [1, 2, 3] ['b', 'l', 'o', 'b'] true).2
        (hash_object sha1stub40 idBytes ⟨[]⟩ [1, 2, 3] ['b', 'l', 'o', 'b'] true).1
      = .ok (['b', 'l', 'o', 'b'], [1, 2, 3]) :=
  write_read_roundtrip sha1stub40 idBytes idBytes (fun b => rfl)
    (fun b => by simp [sha1stub40]) ⟨[]⟩ (by intro d hd; simp at hd)
    [1, 2, 3] ['b', 'l', 'o', 'b'] (Or.inl rfl)
    (by intro c hc; simp [readFileStore, lookupDir] at hc)

/-- Witness for C4: the idempotence statement at a concrete payload on the
empty store. -/
theorem hash_object_idempotent_witness :
    (hash_object sha1stub40 idBytes
        (hash_object sha1stub40 idBytes ⟨[]⟩ [1, 2] blobStr true).2 [1, 2] blobStr true).1
      = (hash_object sha1stub40 idBytes ⟨[]⟩ [1, 2] blobStr true).1
    ∧ (hash_object sha1stub40 idBytes
        (hash_object sha1stub40 idBytes ⟨[]⟩ [1, 2] blobStr true).2 [1, 2] blobStr true).2
      = (hash_object sha1stub40 idBytes ⟨[]⟩ [1, 2] blobStr true).2
    ∧ countFiles (hash_object sha1stub40 idBytes ⟨[]⟩ [1, 2] blobStr true).2
      = countFiles (⟨[]⟩ : ObjectStore)
          + (if pathExists ⟨[]⟩ ((sha1stub40 (frameObj blobStr [1, 2])).take 2)
                ((sha1stub40 (frameObj blobStr [1, 2])).drop 2) then 0 else 1)
    ∧ (pathExists ⟨[]⟩ ((sha1stub40 (frameObj blobStr [1, 2])).take 2)
          ((sha1stub40 (frameObj blobStr [1, 2])).drop 2) = true →
        (hash_object sha1stub40 idBytes ⟨[]⟩ [1, 2] blobStr true).2 = ⟨[]⟩) :=
  hash_object_idempotent sha1stub40 idBytes ⟨[]⟩ [1, 2] blobStr
